import Mathlib

/- Verification development for the Priority_Scheme repository: a shallow
embedding of the order table (Orders.py / pri_scheme.py), the latitude-band
scheduler, the revenue evaluation, the curve validity check
(Optimizer.curve_check) and the optimization driver
(Optimizer.produce_optimized_curves / cost_function), with theorems checking
the specification's claims against these definitions.  Column values are
modelled over an arbitrary linear ordered field with a floor: the rationals
give an executable instance, the reals model the float formulas that use
exp, sin, cos and sqrt. -/

namespace PriorityScheme

/-- One row of the active_orders table: the input columns the core engine
reads (Latitude, DollarPerSquare, MAX_CC, the per-weather-scenario columns
Actual_w and Predicted_w indexed by the scenario number) together with the
derived columns New_Priority, Score, Total_Score and Scheduled that
prepare_dataframe adds. -/
structure SatOrder (α : Type) where
  latitude : α
  dollarPerSquare : α
  maxCC : α
  predicted : ℕ → α
  actual : ℕ → α
  newPriority : α
  score : α
  totalScore : α
  scheduled : Bool

variable {α : Type} [LinearOrderedField α] [FloorRing α]

/-- Orders.priority_to_score: the score returned for a priority.  The
exponential FOM line is commented out in that source file; the live line
reverses the priority and returns 100 - priority. -/
def priority_to_score (priority : α) : α := 100 - priority

/-- Orders.populate_priority: set New_Priority = func(DollarPerSquare) on
every row. -/
def populate_priority (func : α → α) (orders : List (SatOrder α)) : List (SatOrder α) :=
  orders.map fun o => { o with newPriority := func o.dollarPerSquare }

/-- Orders.populate_score: set Score = priority_to_score(New_Priority) on
every row. -/
def populate_score (orders : List (SatOrder α)) : List (SatOrder α) :=
  orders.map fun o => { o with score := priority_to_score o.newPriority }

/-- Orders.populate_total_score: Total_Score = (1 - Predicted_w) * Score. -/
def populate_total_score (w : ℕ) (orders : List (SatOrder α)) : List (SatOrder α) :=
  orders.map fun o => { o with totalScore := (1 - o.predicted w) * o.score }

/-- The reset `self.active_orders.Scheduled = False` performed at the start of
every weather scenario before scheduling. -/
def resetScheduled (orders : List (SatOrder α)) : List (SatOrder α) :=
  orders.map fun o => { o with scheduled := false }

/-- Membership in the band starting at `lat`: the dataframe mask
`(Latitude > latitude) & (Latitude < latitude + 1)` of schedule_orders. -/
def inBand (lat : α) (o : SatOrder α) : Prop :=
  lat < o.latitude ∧ o.latitude < lat + 1

instance (lat : α) (o : SatOrder α) : Decidable (inBand lat o) := by
  unfold inBand; infer_instance

/-- Boolean form of the band mask. -/
def inBandB (lat : α) (o : SatOrder α) : Bool := decide (inBand lat o)

/-- The band slice `order_list`: the rows of the table inside the band
starting at `lat`, each carried with its row label, which equals its row
position since the table keeps its default integer index. -/
def bandSlice (lat : α) (orders : List (SatOrder α)) : List (ℕ × SatOrder α) :=
  orders.enum.filter fun p => inBandB lat p.2

/-- Model of `.Total_Score.idxmax()` on a labelled slice: the label and the
Total_Score of the first row attaining the maximum Total_Score; none when the
slice is empty (pandas would raise there, and the source guards this call
with `if not order_list.empty`). -/
def idxmaxPairs : List (ℕ × SatOrder α) → Option (ℕ × α)
  | [] => none
  | (k, o) :: rest =>
    match idxmaxPairs rest with
    | none => some (k, o.totalScore)
    | some (j, s) => if o.totalScore < s then some (j, s) else some (k, o.totalScore)

/-- Set the Scheduled cell of the row at position `i` to True, the model of
`self.active_orders.iloc[max_index, self.scheduled_column_index] = True`. -/
def markScheduled : List (SatOrder α) → ℕ → List (SatOrder α)
  | [], _ => []
  | o :: rest, 0 => { o with scheduled := true } :: rest
  | o :: rest, n + 1 => o :: markScheduled rest n

/-- One pass of the while-loop body of Orders.schedule_orders for the band
starting at `lat`: when the band slice is non-empty, mark the row with the
maximum Total_Score as scheduled; an empty slice leaves the table unchanged. -/
def scheduleBand (orders : List (SatOrder α)) (lat : α) : List (SatOrder α) :=
  match idxmaxPairs (bandSlice lat orders) with
  | none => orders
  | some (i, _) => markScheduled orders i

/-- Number of iterations of `while latitude < self.max_latitude + 1` stepping
by 2 from min_latitude: the k-th visited latitude is min + 2k, and
min + 2k < max + 1 exactly when k < ceil((max + 1 - min) / 2). -/
def numBands (minLat maxLat : α) : ℕ := ⌈(maxLat + 1 - minLat) / 2⌉₊

/-- The successive values of `latitude` seen at the top of the while loop. -/
def bandStarts (minLat maxLat : α) : List α :=
  List.map (fun k : ℕ => minLat + 2 * (k : α)) (List.range (numBands minLat maxLat))

/-- Orders.schedule_orders and Priority_Optimizer.schedule_orders: starting at
min_latitude and stepping by 2 while below max_latitude + 1, mark the order
with the maximum Total_Score within each band (latitude, latitude + 1).
`minLat` and `maxLat` stand for the attributes self.min_latitude and
self.max_latitude that load_data computes from the Latitude column. -/
def schedule_orders (minLat maxLat : α) (orders : List (SatOrder α)) : List (SatOrder α) :=
  (bandStarts minLat maxLat).foldl scheduleBand orders

/-- Orders.total_dollars: the sum of DollarPerSquare over the rows with
`(Scheduled == True) & (MAX_CC > Actual_w)`. -/
def total_dollars (w : ℕ) (orders : List (SatOrder α)) : α :=
  ((orders.filter fun o => o.scheduled && decide (o.maxCC > o.actual w)).map
    fun o => o.dollarPerSquare).sum

/-- Priority_Optimizer.total_dollars: the same mask and sum, but this variant
returns the sum plus a standard-normal draw (the draw is passed in explicitly
as `noise`; the exact sum is only appended to a diagnostic list). -/
def priScheme_total_dollars (w : ℕ) (orders : List (SatOrder α)) (noise : α) : α :=
  total_dollars w orders + noise

/-- Maximum of a non-empty list, as Python's `max`; 0 for the empty list,
which curve_check never passes since its sample list has 50 entries. -/
def listMax : List α → α
  | [] => 0
  | x :: xs => xs.foldl max x

/-- Minimum of a non-empty list, as Python's `min`. -/
def listMin : List α → α
  | [] => 0
  | x :: xs => xs.foldl min x

/-- The 50 samples `[func(i) for i in range(50)]` taken by
Optimizer.curve_check. -/
def sampleVals (func : ℕ → α) : List α := (List.range 50).map func

/-- max_val of Optimizer.curve_check. -/
def maxVal (func : ℕ → α) : α := listMax (sampleVals func)

/-- min_val of Optimizer.curve_check. -/
def minVal (func : ℕ → α) : α := listMin (sampleVals func)

/-- Optimizer.curve_check: both multipliers start at 1; max_multiplyer becomes
max_val - pri_max when max_val > pri_max = 100, min_multiplyer becomes
-min_val when min_val < 0; the result is
ceil((max_multiplyer ** 2 + min_multiplyer ** 2) / 2). -/
def curve_check (func : ℕ → α) : ℤ :=
  let pri_max : α := 100
  let max_val := maxVal func
  let min_val := minVal func
  let max_multiplyer : α := if max_val > pri_max then max_val - pri_max else 1
  let min_multiplyer : α := if min_val < 0 then -min_val else 1
  ⌈(max_multiplyer ^ 2 + min_multiplyer ^ 2) / 2⌉

/-- Modelled from the claim: CurveValidityPenalty as the specification words
it, with over = max(0, max_val - 100), under = max(0, -min_val), penalty =
ceil((over^2 + under^2) / 2) floored at 1. -/
def curve_check_spec (func : ℕ → α) : ℤ :=
  let over : α := max 0 (maxVal func - 100)
  let under : α := max 0 (-(minVal func))
  max 1 ⌈(over ^ 2 + under ^ 2) / 2⌉

/-- Optimizer.produce_curve for real-valued (finite) coefficients: the fixed
basis a + b x + c exp(0.04 x) + d x^(1/2) + e (x - 15)^2 + f sin(0.2 (x - 10))
+ g cos(0.2 (x - 10)).  Every evaluation point in the source is a nonnegative
dollar value or a sample integer, where x ** (1/2) is the square root.  The
NaN substitution of the source is modelled on FVal by produce_curveF below;
a real number is never NaN. -/
noncomputable def produce_curve (c : Fin 7 → ℝ) (x : ℝ) : ℝ :=
  c 0 + c 1 * x + c 2 * Real.exp (0.04 * x) + c 3 * Real.sqrt x +
    c 4 * (x - 15) ^ 2 + c 5 * Real.sin (0.2 * (x - 10)) + c 6 * Real.cos (0.2 * (x - 10))

/-- The state built inside the scenario loop of Optimizer.cost_function:
reset the Scheduled column, populate Total_Score for weather column w, then
schedule the orders.  Each loop iteration overwrites every row of the
Scheduled and Total_Score columns, so the per-scenario state is a function of
the scored table alone. -/
def scenarioState (minLat maxLat : α) (w : ℕ) (orders : List (SatOrder α)) :
    List (SatOrder α) :=
  schedule_orders minLat maxLat (populate_total_score w (resetScheduled orders))

/-- The accumulation of `average_dollar_total` over
`for weather_column in range(self.weather_scenarios)` followed by the division
by the scenario count; `orders` is the table after populate_priority and
populate_score. -/
def average_dollar_total (minLat maxLat : α) (scenarios : ℕ)
    (orders : List (SatOrder α)) : α :=
  (((List.range scenarios).map fun w =>
    total_dollars w (scenarioState minLat maxLat w orders)).sum) / (scenarios : α)

/-- Arithmetic mean of a list of values, as the specification describes the
reduction over weather scenarios. -/
def arithMean (xs : List α) : α := xs.sum / (xs.length : α)

/-- Optimizer.cost_function: produce the curve, read the curve_check
multiplier of the current curve, recompute New_Priority and Score, run every
weather scenario, average the scenario dollar totals, then return
-(average / multiplyer) + rng.normal() * 0.1 (the normal draw is the explicit
argument `noise`). -/
noncomputable def cost_function (coefficients : Fin 7 → ℝ) (minLat maxLat : ℝ)
    (scenarios : ℕ) (orders : List (SatOrder ℝ)) (noise : ℝ) : ℝ :=
  let curve := produce_curve coefficients
  let multiplyer : ℝ := ((curve_check fun i => curve (i : ℝ)) : ℤ)
  let scored := populate_score (populate_priority curve orders);
  -(average_dollar_total minLat maxLat scenarios scored / multiplyer) + noise * 0.1

/-- Modelled from the claim: the per-iteration objective as claim C6 states
it, identical to cost_function except that no validity multiplier is applied
inside the evaluation. -/
noncomputable def cost_function_claim (coefficients : Fin 7 → ℝ) (minLat maxLat : ℝ)
    (scenarios : ℕ) (orders : List (SatOrder ℝ)) (noise : ℝ) : ℝ :=
  let curve := produce_curve coefficients
  let scored := populate_score (populate_priority curve orders);
  -(average_dollar_total minLat maxLat scenarios scored) + noise * 0.1

/-- The record scipy.optimize.minimize returns, as produce_optimized_curves
reads it: the success flag, the message, the objective value and the best
point found. -/
structure MinimizeResult where
  success : Bool
  message : String
  fval : ℝ
  xvec : List ℝ

/-- The one message produce_optimized_curves tolerates for an unsuccessful
search. -/
def maxFevalMessage : String :=
  "Maximum number of function evaluations has been exceeded."

/-- One iteration of the produce_optimized_curves loop for one starting
point: generate the starting curve and curve_check it; when the check is not
1 the case is skipped (the curve is printed) and nothing is recorded; when it
is 1 the search runs and the run fails with ValueError unless the search
succeeded or stopped with the tolerated budget message; a tolerated outcome
records the search result, whose best point goes to the results table.  The
search itself is the external scipy routine, passed in as `minimize`. -/
noncomputable def processCase (minimize : (Fin 7 → ℝ) → MinimizeResult)
    (coefficients : Fin 7 → ℝ) : Except String (Option MinimizeResult) :=
  if curve_check (fun i => produce_curve coefficients (i : ℝ)) = 1 then
    let result := minimize coefficients
    if result.success = false ∧ result.message ≠ maxFevalMessage then
      Except.error result.message
    else Except.ok (some result)
  else Except.ok none

/-- The loop of produce_optimized_curves over all starting points: a raised
error aborts the whole run, a skipped case contributes none and the run
continues, a processed case contributes its recorded result. -/
noncomputable def runCases (minimize : (Fin 7 → ℝ) → MinimizeResult) :
    List (Fin 7 → ℝ) → Except String (List (Option MinimizeResult))
  | [] => Except.ok []
  | c :: rest =>
    match processCase minimize c with
    | Except.error e => Except.error e
    | Except.ok r =>
      match runCases minimize rest with
      | Except.error e => Except.error e
      | Except.ok rs => Except.ok (r :: rs)

/-- Model of a Python float where the coefficient sanitization matters: a
finite value, NaN, or a signed infinity. -/
inductive FVal where
  | finite (val : ℝ)
  | nan
  | posInf
  | negInf

/-- numpy.isnan: true exactly on NaN; an infinity is not NaN. -/
def FVal.isnanB : FVal → Bool
  | .nan => true
  | _ => false

/-- The specification's finiteness test: NaN and both infinities are
non-finite. -/
def FVal.isFiniteB : FVal → Bool
  | .finite _ => true
  | _ => false

/-- IEEE addition on the modelled floats. -/
def fadd : FVal → FVal → FVal
  | .nan, _ => .nan
  | _, .nan => .nan
  | .posInf, .negInf => .nan
  | .negInf, .posInf => .nan
  | .posInf, _ => .posInf
  | _, .posInf => .posInf
  | .negInf, _ => .negInf
  | _, .negInf => .negInf
  | .finite a, .finite b => .finite (a + b)

/-- IEEE multiplication of a modelled float coefficient with a finite value,
the value of one basis function at the evaluation point. -/
noncomputable def fmulFin (v : FVal) (r : ℝ) : FVal :=
  match v with
  | .finite a => .finite (a * r)
  | .nan => .nan
  | .posInf => if 0 < r then .posInf else if r < 0 then .negInf else .nan
  | .negInf => if 0 < r then .negInf else if r < 0 then .posInf else .nan

/-- The list comprehension `[0 if isnan(x) else x for x in coefficients]` of
Optimizer.produce_curve. -/
def sanitize (c : Fin 7 → FVal) : Fin 7 → FVal :=
  fun i => if (c i).isnanB then .finite 0 else c i

/-- Optimizer.produce_curve on modelled floats: substitute 0 for NaN
coefficients only, then evaluate the basis combination at the (finite) dollar
value x. -/
noncomputable def produce_curveF (c : Fin 7 → FVal) (x : ℝ) : FVal :=
  let s := sanitize c
  fadd (fadd (fadd (fadd (fadd (fadd (s 0) (fmulFin (s 1) x))
    (fmulFin (s 2) (Real.exp (0.04 * x)))) (fmulFin (s 3) (Real.sqrt x)))
    (fmulFin (s 4) ((x - 15) ^ 2))) (fmulFin (s 5) (Real.sin (0.2 * (x - 10)))))
    (fmulFin (s 6) (Real.cos (0.2 * (x - 10))))

/-- Priority_Optimizer.priority_to_score:
exp(self.coefficient * (self.powers - (5 * priority) / self.range)) with
coefficient = 0.47, powers = 10, range = 100. -/
noncomputable def priScheme_priority_to_score (priority : ℝ) : ℝ :=
  Real.exp (0.47 * (10 - (5 * priority) / 100))

/-- The value Priority_Optimizer.populate_score stores in the Score column:
the FOM score of New_Priority - 700. -/
noncomputable def priScheme_score (newPriority : ℝ) : ℝ :=
  priScheme_priority_to_score (newPriority - 700)

/-- Modelled from the claim: score(priority) = exp(k (p - 5 priority / r))
with k = 0.47, p = 10, r = 100. -/
noncomputable def score_spec (priority : ℝ) : ℝ :=
  Real.exp (0.47 * (10 - 5 * priority / 100))

/-- The columns of one order row that the dollar-value resolution reads and
writes: the customer number, Task_Pri, and DollarPerSquare, where none models
a missing or NaN cell. -/
structure DollarRow where
  cust : ℤ
  taskPri : ℤ
  dollar : Option ℚ
deriving DecidableEq

/-- Orders.populate_MCP_dollar_value: the mapped dollar value when x is a key
of the MCP map, and None (the implicit Python return) otherwise. -/
def populate_MCP_dollar_value (mcpMap : List (ℤ × ℚ)) (x : ℤ) : Option ℚ :=
  List.lookup x mcpMap

/-- Orders.populate_dollar_values: first overwrite DollarPerSquare for every
row whose customer is in the zero-dollar map with the mapped value, then
overwrite every customer-306 row with the MCP lookup on its Task_Pri, which
is None when the Task_Pri is not a key. -/
def populate_dollar_values (zeroMap mcpMap : List (ℤ × ℚ)) (rows : List DollarRow) :
    List DollarRow :=
  (rows.map fun r =>
      if (List.lookup r.cust zeroMap).isSome then
        { r with dollar := List.lookup r.cust zeroMap }
      else r).map
    fun r =>
      if r.cust = 306 then
        { r with dollar := populate_MCP_dollar_value mcpMap r.taskPri }
      else r

/-- Modelled from the amended claim: the per-row dollar resolution rule that
populate_dollar_values implements. -/
def resolveDollar (zeroMap mcpMap : List (ℤ × ℚ)) (r : DollarRow) : DollarRow :=
  if r.cust = 306 then { r with dollar := List.lookup r.taskPri mcpMap }
  else if (List.lookup r.cust zeroMap).isSome then
    { r with dollar := List.lookup r.cust zeroMap }
  else r

/-- A sample curve whose sampled maximum is 150 and sampled minimum is 0: it
takes the value 0 at sample point 0 and 150 at every other sample point. -/
def fC3 : ℕ → ℚ := fun i => if i = 0 then 0 else 150

/-- A coefficient vector whose first coefficient is `a` and whose other six
coefficients are 0, so produce_curve gives the constant curve `a`. -/
def singleCoeff (a : ℝ) : Fin 7 → ℝ := fun i => if i.val = 0 then a else 0

/-- A coefficient vector with +infinity in the constant slot. -/
def coefInf : Fin 7 → FVal := fun i => if i.val = 0 then FVal.posInf else FVal.finite 0

/-- A coefficient vector with NaN in the constant slot. -/
def coefNan : Fin 7 → FVal := fun i => if i.val = 0 then FVal.nan else FVal.finite 0

/-- A one-row table with a scheduled order whose actual cloud cover 0 is
within its MAX_CC of 1/2 and whose DollarPerSquare is 7. -/
def ordersC2 : List (SatOrder ℚ) :=
  [{ latitude := 0, dollarPerSquare := 7, maxCC := 1/2, predicted := fun _ => 0,
     actual := fun _ => 0, newPriority := 0, score := 0, totalScore := 0,
     scheduled := true }]

/-- A two-row table: the first order sits exactly at the minimum latitude 10
(hence outside the open band), the second sits at latitude 10.5 inside the
band (10, 11), pays 5 dollars per square and tolerates any cloud cover. -/
def ordersC6 : List (SatOrder ℝ) :=
  [{ latitude := 10, dollarPerSquare := 1, maxCC := 1, predicted := fun _ => 0,
     actual := fun _ => 0, newPriority := 0, score := 0, totalScore := 0,
     scheduled := false },
   { latitude := 10.5, dollarPerSquare := 5, maxCC := 1, predicted := fun _ => 0,
     actual := fun _ => 0, newPriority := 0, score := 0, totalScore := 0,
     scheduled := false }]

/-- The first C6 row, at the evaluation stage of weather scenario 0 under the
constant-150 curve: New_Priority 150, Score 100 - 150 = -50, Total_Score
(1 - 0) * (-50) = -50. -/
def rowC6a : SatOrder ℝ :=
  { latitude := 10, dollarPerSquare := 1, maxCC := 1, predicted := fun _ => 0,
    actual := fun _ => 0, newPriority := 150, score := -50, totalScore := -50,
    scheduled := false }

/-- The second C6 row at the same stage. -/
def rowC6b : SatOrder ℝ :=
  { latitude := 10.5, dollarPerSquare := 5, maxCC := 1, predicted := fun _ => 0,
    actual := fun _ => 0, newPriority := 150, score := -50, totalScore := -50,
    scheduled := false }

/-- The C6 table after populate_priority and populate_score under the
constant-150 curve (total scores not yet populated). -/
def ordersC6scored : List (SatOrder ℝ) :=
  [{ rowC6a with totalScore := 0 }, { rowC6b with totalScore := 0 }]

/-- The C6 table with scenario-0 total scores populated. -/
def ordersC6ts : List (SatOrder ℝ) := [rowC6a, rowC6b]

/-- The C6 table after scheduling scenario 0: the single band (10, 11) holds
only the second row, which gets marked scheduled. -/
def ordersC6sched : List (SatOrder ℝ) := [rowC6a, { rowC6b with scheduled := true }]

/-- A search stub that stops unsuccessfully with the tolerated budget
message. -/
def minimizeBudget : (Fin 7 → ℝ) → MinimizeResult :=
  fun _ => { success := false, message := maxFevalMessage, fval := 3, xvec := [1] }

/-- A search stub that stops unsuccessfully with a different message. -/
def minimizeFailed : (Fin 7 → ℝ) → MinimizeResult :=
  fun _ => { success := false, message := "Desired error not necessarily achieved due to precision loss.", fval := 3, xvec := [1] }

/-- A one-row order table with a customer-306 order whose Task_Pri 99 is not
a key of the MCP map. -/
def rowsC9 : List DollarRow := [{ cust := 306, taskPri := 99, dollar := some 5 }]

/-! Helper lemmas about list maxima and minima, the curve samples, and the
curve_check formula. -/

theorem foldl_max_le {c a : α} {l : List α} (ha : a ≤ c) (hl : ∀ x ∈ l, x ≤ c) :
    l.foldl max a ≤ c := by
  induction l generalizing a with
  | nil => exact ha
  | cons x xs ih =>
    exact ih (max_le ha (hl x (List.mem_cons_self x xs)))
      fun y hy => hl y (List.mem_cons_of_mem x hy)

theorem le_foldl_max (a : α) (l : List α) : a ≤ l.foldl max a := by
  induction l generalizing a with
  | nil => exact le_refl a
  | cons x xs ih => exact le_trans (le_max_left a x) (ih (max a x))

theorem mem_le_foldl_max {x : α} {l : List α} (a : α) (hx : x ∈ l) :
    x ≤ l.foldl max a := by
  induction l generalizing a with
  | nil => cases hx
  | cons y ys ih =>
    rcases List.mem_cons.mp hx with rfl | h
    · exact le_trans (le_max_right a x) (le_foldl_max _ _)
    · exact ih _ h

theorem foldl_max_mem (a : α) (l : List α) : l.foldl max a = a ∨ l.foldl max a ∈ l := by
  induction l generalizing a with
  | nil => exact Or.inl rfl
  | cons x xs ih =>
    rcases ih (max a x) with h | h
    · rcases max_choice a x with hax | hax
      · exact Or.inl (by rw [List.foldl_cons, h, hax])
      · exact Or.inr (by rw [List.foldl_cons, h, hax]; exact List.mem_cons_self x xs)
    · exact Or.inr (List.mem_cons_of_mem x h)

theorem le_foldl_min {c a : α} {l : List α} (ha : c ≤ a) (hl : ∀ x ∈ l, c ≤ x) :
    c ≤ l.foldl min a := by
  induction l generalizing a with
  | nil => exact ha
  | cons x xs ih =>
    exact ih (le_min ha (hl x (List.mem_cons_self x xs)))
      fun y hy => hl y (List.mem_cons_of_mem x hy)

theorem foldl_min_le (a : α) (l : List α) : l.foldl min a ≤ a := by
  induction l generalizing a with
  | nil => exact le_refl a
  | cons x xs ih => exact le_trans (ih (min a x)) (min_le_left a x)

theorem foldl_min_le_mem {x : α} {l : List α} (a : α) (hx : x ∈ l) :
    l.foldl min a ≤ x := by
  induction l generalizing a with
  | nil => cases hx
  | cons y ys ih =>
    rcases List.mem_cons.mp hx with rfl | h
    · exact le_trans (foldl_min_le (min a x) ys) (min_le_right a x)
    · exact ih _ h

theorem foldl_min_mem (a : α) (l : List α) : l.foldl min a = a ∨ l.foldl min a ∈ l := by
  induction l generalizing a with
  | nil => exact Or.inl rfl
  | cons x xs ih =>
    rcases ih (min a x) with h | h
    · rcases min_choice a x with hax | hax
      · exact Or.inl (by rw [List.foldl_cons, h, hax])
      · exact Or.inr (by rw [List.foldl_cons, h, hax]; exact List.mem_cons_self x xs)
    · exact Or.inr (List.mem_cons_of_mem x h)

theorem foldl_max_replicate (n : ℕ) (a c : α) :
    (List.replicate n c).foldl max a = if n = 0 then a else max a c := by
  induction n generalizing a with
  | zero => rfl
  | succ m ih =>
    rw [List.replicate_succ, List.foldl_cons, ih]
    rcases Nat.eq_zero_or_pos m with rfl | hm
    · simp
    · rw [if_neg (Nat.pos_iff_ne_zero.mp hm), if_neg (Nat.succ_ne_zero m),
        max_assoc, max_self]

theorem foldl_min_replicate (n : ℕ) (a c : α) :
    (List.replicate n c).foldl min a = if n = 0 then a else min a c := by
  induction n generalizing a with
  | zero => rfl
  | succ m ih =>
    rw [List.replicate_succ, List.foldl_cons, ih]
    rcases Nat.eq_zero_or_pos m with rfl | hm
    · simp
    · rw [if_neg (Nat.pos_iff_ne_zero.mp hm), if_neg (Nat.succ_ne_zero m),
        min_assoc, min_self]

theorem sampleVals_ne_nil (func : ℕ → α) : sampleVals func ≠ [] := by
  have : (sampleVals func).length = 50 := by simp [sampleVals]
  intro h
  rw [h] at this
  exact absurd this (by norm_num)

theorem mem_sampleVals {func : ℕ → α} {x : α} :
    x ∈ sampleVals func ↔ ∃ i, i < 50 ∧ func i = x := by
  simp [sampleVals, List.mem_map, List.mem_range]

theorem listMax_le {l : List α} {c : α} (h0 : l ≠ []) (h : ∀ x ∈ l, x ≤ c) :
    listMax l ≤ c := by
  cases l with
  | nil => exact absurd rfl h0
  | cons x xs =>
    exact foldl_max_le (h x (List.mem_cons_self x xs))
      fun y hy => h y (List.mem_cons_of_mem x hy)

theorem le_listMax {l : List α} {x : α} (hx : x ∈ l) : x ≤ listMax l := by
  cases l with
  | nil => cases hx
  | cons y ys =>
    rcases List.mem_cons.mp hx with rfl | h
    · exact le_foldl_max _ _
    · exact mem_le_foldl_max _ h

theorem listMax_mem {l : List α} (h0 : l ≠ []) : listMax l ∈ l := by
  cases l with
  | nil => exact absurd rfl h0
  | cons x xs =>
    rcases foldl_max_mem x xs with h | h
    · rw [listMax, h]; exact List.mem_cons_self x xs
    · exact List.mem_cons_of_mem x h

theorem le_listMin {l : List α} {c : α} (h0 : l ≠ []) (h : ∀ x ∈ l, c ≤ x) :
    c ≤ listMin l := by
  cases l with
  | nil => exact absurd rfl h0
  | cons x xs =>
    exact le_foldl_min (h x (List.mem_cons_self x xs))
      fun y hy => h y (List.mem_cons_of_mem x hy)

theorem listMin_le {l : List α} {x : α} (hx : x ∈ l) : listMin l ≤ x := by
  cases l with
  | nil => cases hx
  | cons y ys =>
    rcases List.mem_cons.mp hx with rfl | h
    · exact foldl_min_le _ _
    · exact foldl_min_le_mem _ h

theorem listMin_mem {l : List α} (h0 : l ≠ []) : listMin l ∈ l := by
  cases l with
  | nil => exact absurd rfl h0
  | cons x xs =>
    rcases foldl_min_mem x xs with h | h
    · rw [listMin, h]; exact List.mem_cons_self x xs
    · exact List.mem_cons_of_mem x h

theorem maxVal_le {func : ℕ → α} {c : α} (h : ∀ i, i < 50 → func i ≤ c) :
    maxVal func ≤ c := by
  refine listMax_le (sampleVals_ne_nil func) fun x hx => ?_
  obtain ⟨i, hi, rfl⟩ := mem_sampleVals.mp hx
  exact h i hi

theorem le_minVal {func : ℕ → α} {c : α} (h : ∀ i, i < 50 → c ≤ func i) :
    c ≤ minVal func := by
  refine le_listMin (sampleVals_ne_nil func) fun x hx => ?_
  obtain ⟨i, hi, rfl⟩ := mem_sampleVals.mp hx
  exact h i hi

theorem sampleVals_const (c : α) : sampleVals (fun _ => c) = List.replicate 50 c := by
  rw [sampleVals]
  exact List.map_const (List.range 50) c

theorem listMax_cons (x : α) (xs : List α) : listMax (x :: xs) = xs.foldl max x := rfl

theorem listMin_cons (x : α) (xs : List α) : listMin (x :: xs) = xs.foldl min x := rfl

theorem maxVal_const (c : α) : maxVal (fun _ => c) = c := by
  rw [maxVal, sampleVals_const, show (50 : ℕ) = 49 + 1 from rfl, List.replicate_succ,
    listMax_cons, foldl_max_replicate]
  norm_num

theorem minVal_const (c : α) : minVal (fun _ => c) = c := by
  rw [minVal, sampleVals_const, show (50 : ℕ) = 49 + 1 from rfl, List.replicate_succ,
    listMin_cons, foldl_min_replicate]
  norm_num

theorem curve_check_eq (func : ℕ → α) :
    curve_check func =
      ⌈((if 100 < maxVal func then maxVal func - 100 else 1) ^ 2 +
        (if minVal func < 0 then -minVal func else 1) ^ 2) / 2⌉ := rfl

theorem one_le_curve_check (func : ℕ → α) : 1 ≤ curve_check func := by
  rw [curve_check_eq]
  have hA : (0 : α) < (if 100 < maxVal func then maxVal func - 100 else 1) := by
    split
    · linarith
    · norm_num
  have hB : (0 : α) < (if minVal func < 0 then -minVal func else 1) := by
    split
    · linarith
    · norm_num
  have hpos : (0 : α) <
      ((if 100 < maxVal func then maxVal func - 100 else 1) ^ 2 +
        (if minVal func < 0 then -minVal func else 1) ^ 2) / 2 := by positivity
  have := Int.ceil_pos.mpr hpos
  omega

theorem curve_check_of_inRange {func : ℕ → α} (hmax : maxVal func ≤ 100)
    (hmin : 0 ≤ minVal func) : curve_check func = 1 := by
  rw [curve_check_eq, if_neg (not_lt.mpr hmax), if_neg (not_lt.mpr hmin)]
  rw [show ((1 : α) ^ 2 + 1 ^ 2) / 2 = 1 by norm_num, Int.ceil_one]

theorem curve_check_of_slightly_over {func : ℕ → α} (hmin : 0 ≤ minVal func)
    (h1 : 100 < maxVal func) (h2 : maxVal func ≤ 101) : curve_check func = 1 := by
  rw [curve_check_eq, if_pos h1, if_neg (not_lt.mpr hmin)]
  rw [Int.ceil_eq_iff]
  constructor
  · push_cast
    nlinarith
  · push_cast
    nlinarith

theorem sampleVals_fC3 : sampleVals fC3 = (0 : ℚ) :: List.replicate 49 150 := by
  rw [sampleVals, show (50 : ℕ) = 49 + 1 from rfl, List.range_succ_eq_map,
    List.map_cons, List.map_map]
  have h : List.map (fC3 ∘ Nat.succ) (List.range 49) = List.replicate 49 150 := by
    have h2 : (fC3 ∘ Nat.succ) = fun _ => (150 : ℚ) := by
      funext i
      simp [fC3, Function.comp, Nat.succ_ne_zero]
    rw [h2, List.map_const', List.length_range]
  rw [h]
  rfl

theorem maxVal_fC3 : maxVal fC3 = 150 := by
  rw [maxVal, sampleVals_fC3, listMax_cons, foldl_max_replicate]
  norm_num

theorem minVal_fC3 : minVal fC3 = 0 := by
  rw [minVal, sampleVals_fC3, listMin_cons, foldl_min_replicate]
  norm_num

theorem produce_curve_single (a : ℝ) (x : ℝ) : produce_curve (singleCoeff a) x = a := by
  rw [produce_curve, show singleCoeff a 0 = a from rfl,
    show singleCoeff a 1 = 0 from rfl, show singleCoeff a 2 = 0 from rfl,
    show singleCoeff a 3 = 0 from rfl, show singleCoeff a 4 = 0 from rfl,
    show singleCoeff a 5 = 0 from rfl, show singleCoeff a 6 = 0 from rfl]
  ring

theorem produce_curve_single_fun (a : ℝ) :
    (fun i : ℕ => produce_curve (singleCoeff a) (i : ℝ)) = fun _ => a := by
  funext i
  exact produce_curve_single a i

/-- C3: the validity penalty is not ceil((over^2 + under^2) / 2) with
over = max(0, max_val - 100) and under = max(0, -min_val): at a curve with
sampled maximum 150 and sampled minimum 0 the code returns
ceil((50^2 + 1^2) / 2) = 1251 while the specification's formula gives 1250,
because the in-range multiplier defaults to 1, not 0. -/
theorem C3_counterexample :
    curve_check fC3 = 1251 ∧ curve_check_spec fC3 = 1250 ∧
    curve_check fC3 ≠ curve_check_spec fC3 := by
  have h1 : curve_check fC3 = 1251 := by
    rw [curve_check_eq, maxVal_fC3, minVal_fC3, if_pos (by norm_num), if_neg (by norm_num),
      Int.ceil_eq_iff]
    constructor <;> norm_num
  have h2 : curve_check_spec fC3 = 1250 := by
    rw [curve_check_spec]
    simp only [maxVal_fC3, minVal_fC3]
    rw [show max (0 : ℚ) (150 - 100) = 50 by norm_num,
      show max (0 : ℚ) (-0) = 0 by norm_num,
      show ((50 : ℚ) ^ 2 + 0 ^ 2) / 2 = 1250 by norm_num]
    rw [show ((1250 : ℚ)) = ((1250 : ℤ) : ℚ) by norm_num, Int.ceil_intCast]
    norm_num
  exact ⟨h1, h2, by rw [h1, h2]; norm_num⟩

/-- C3 amended: the validity penalty equals ceil((a^2 + b^2) / 2) where
a = max_val - 100 if max_val > 100 else 1 and b = -min_val if min_val < 0
else 1; it is always at least 1, and a curve with sampled extrema
max_val = 150, min_val = 0 yields penalty 1251. -/
theorem C3_penalty_formula (func : ℕ → α) :
    curve_check func =
      ⌈((if 100 < maxVal func then maxVal func - 100 else 1) ^ 2 +
        (if minVal func < 0 then -minVal func else 1) ^ 2) / 2⌉ ∧
    1 ≤ curve_check func ∧
    (maxVal func = 150 → minVal func = 0 → curve_check func = 1251) := by
  refine ⟨curve_check_eq func, one_le_curve_check func, fun h1 h2 => ?_⟩
  rw [curve_check_eq, h1, h2, if_pos (by norm_num), if_neg (by norm_num), Int.ceil_eq_iff]
  constructor <;> norm_num

/-- C3 witness: at the sample curve with extrema 150 and 0 the amended
formula gives the concrete penalty 1251. -/
theorem C3_penalty_formula_witness : curve_check fC3 = 1251 :=
  (C3_penalty_formula fC3).2.2 maxVal_fC3 minVal_fC3

/-- C4: every curve whose 50 integer samples all lie within [0, 100] gets
validity penalty exactly 1, and the returned multiplier is at least 1 for
every curve. -/
theorem C4_validity_penalty (func : ℕ → α) :
    ((∀ i, i < 50 → 0 ≤ func i ∧ func i ≤ 100) → curve_check func = 1) ∧
    1 ≤ curve_check func :=
  ⟨fun h => curve_check_of_inRange (maxVal_le fun i hi => (h i hi).2)
      (le_minVal fun i hi => (h i hi).1),
    one_le_curve_check func⟩

/-- C4 witness: the constant curve 50 is within range and its penalty is 1. -/
theorem C4_validity_penalty_witness : curve_check (fun _ => (50 : ℚ)) = 1 :=
  (C4_validity_penalty fun _ => (50 : ℚ)).1 fun i _ => by norm_num

/-- C10: a curve whose sampled minimum is at least 0 and whose sampled
maximum lies in (100, 101] still passes the validity check with multiplier 1,
and in particular the constant curve 101 is accepted by
produce_optimized_curves as a valid starting curve (its case is never
skipped). -/
theorem C10_overshoot_accepted (func : ℕ → α) :
    (0 ≤ minVal func → 100 < maxVal func → maxVal func ≤ 101 → curve_check func = 1) ∧
    (∀ minimize : (Fin 7 → ℝ) → MinimizeResult,
      processCase minimize (singleCoeff 101) ≠ Except.ok none) := by
  constructor
  · exact fun h1 h2 h3 => curve_check_of_slightly_over h1 h2 h3
  · intro minimize
    have hcheck : curve_check (fun i : ℕ => produce_curve (singleCoeff 101) (i : ℝ)) = 1 := by
      rw [produce_curve_single_fun]
      exact curve_check_of_slightly_over (by rw [minVal_const]; norm_num)
        (by rw [maxVal_const]; norm_num) (by rw [maxVal_const])
    simp only [processCase, if_pos hcheck]
    split
    · intro h
      exact Except.noConfusion h
    · intro h
      injection h with h'
      exact Option.noConfusion h'

/-- C10 witness: the constant curve 101 overshoots the ceiling yet has
penalty 1. -/
theorem C10_overshoot_accepted_witness : curve_check (fun _ => (101 : ℚ)) = 1 :=
  (C10_overshoot_accepted fun _ => (101 : ℚ)).1
    (by rw [minVal_const]; norm_num) (by rw [maxVal_const]; norm_num)
    (by rw [maxVal_const])

theorem sum_map_filter {β : Type} (p : β → Bool) (f : β → α) (l : List β) :
    ((l.filter p).map f).sum = (l.map fun a => if p a = true then f a else 0).sum := by
  induction l with
  | nil => rfl
  | cons a l ih =>
    rw [List.filter_cons, List.map_cons]
    by_cases h : p a = true
    · rw [if_pos h, List.map_cons, List.sum_cons, List.sum_cons, ih, if_pos h]
    · rw [if_neg h, List.sum_cons, ih, if_neg h, zero_add]

/-- C2 amended: Orders.total_dollars is exactly the sum of DollarPerSquare
over scheduled orders whose actual cloud cover is strictly below their
MAX_CC (other orders contribute 0); the pri_scheme variant returns that exact
sum plus a standard-normal draw; and the Optimizer objective reduces the
per-scenario totals with the arithmetic mean. -/
theorem C2_revenue_evaluation :
    (∀ (w : ℕ) (orders : List (SatOrder α)),
      total_dollars w orders =
        (orders.map fun o =>
          if o.scheduled = true ∧ o.actual w < o.maxCC then o.dollarPerSquare else 0).sum) ∧
    (∀ (w : ℕ) (orders : List (SatOrder α)) (noise : α),
      priScheme_total_dollars w orders noise = total_dollars w orders + noise) ∧
    (∀ (minLat maxLat : α) (scenarios : ℕ) (orders : List (SatOrder α)),
      average_dollar_total minLat maxLat scenarios orders =
        arithMean ((List.range scenarios).map fun w =>
          total_dollars w (scenarioState minLat maxLat w orders))) := by
  refine ⟨fun w orders => ?_, fun w orders noise => rfl, fun minLat maxLat scenarios orders => ?_⟩
  · rw [total_dollars, sum_map_filter]
    simp only [Bool.and_eq_true, decide_eq_true_eq, gt_iff_lt]
  · rw [average_dollar_total, arithMean, List.length_map, List.length_range]

/-- C2 counterexample: the pri_scheme total_dollars does not equal the exact
filtered sum: on a one-order table whose scheduled order pays 7 and is within
cloud tolerance, the exact sum is 7 but the pri_scheme return value with a
standard-normal draw of 1 is 8. -/
theorem C2_counterexample :
    priScheme_total_dollars 0 ordersC2 1 ≠ total_dollars 0 ordersC2 ∧
    total_dollars 0 ordersC2 = 7 ∧ priScheme_total_dollars 0 ordersC2 1 = 8 := by
  have h : total_dollars 0 ordersC2 = 7 := by
    rw [ordersC2, total_dollars]
    norm_num [List.filter_cons]
  refine ⟨?_, h, ?_⟩
  · rw [priScheme_total_dollars, h]
    norm_num
  · rw [priScheme_total_dollars, h]
    norm_num

/-- C9 amended: the dollar resolution maps each row through resolveDollar: a
customer-306 row gets the MCP lookup on its Task_Pri, which is undefined when
the Task_Pri is not a key; any other row gets the zero-dollar-map value when
its customer is a key and otherwise keeps its input value.  So every order
has exactly one resolved, defined dollar value except a customer-306 order
with an unmapped Task_Pri, whose value ends undefined. -/
theorem C9_dollar_resolution :
    (∀ (zeroMap mcpMap : List (ℤ × ℚ)) (rows : List DollarRow),
      populate_dollar_values zeroMap mcpMap rows = rows.map (resolveDollar zeroMap mcpMap)) ∧
    (∀ (zeroMap mcpMap : List (ℤ × ℚ)) (r : DollarRow),
      (resolveDollar zeroMap mcpMap r).dollar.isSome =
        (if r.cust = 306 then (List.lookup r.taskPri mcpMap).isSome
         else ((List.lookup r.cust zeroMap).isSome || r.dollar.isSome))) := by
  constructor
  · intro zeroMap mcpMap rows
    rw [populate_dollar_values, List.map_map]
    refine List.map_congr_left fun r _ => ?_
    obtain ⟨c, t, d⟩ := r
    by_cases h306 : c = 306
    · subst h306
      by_cases hz : (List.lookup (306 : ℤ) zeroMap).isSome = true
      · simp [Function.comp, resolveDollar, populate_MCP_dollar_value, hz]
      · simp [Function.comp, resolveDollar, populate_MCP_dollar_value, hz]
    · by_cases hz : (List.lookup c zeroMap).isSome = true
      · simp [Function.comp, resolveDollar, populate_MCP_dollar_value, hz, h306]
      · simp [Function.comp, resolveDollar, populate_MCP_dollar_value, hz, h306]
  · intro zeroMap mcpMap r
    by_cases h306 : r.cust = 306
    · simp [resolveDollar, h306]
    · by_cases hz : (List.lookup r.cust zeroMap).isSome
      · simp [resolveDollar, h306, hz]
      · simp [resolveDollar, h306, hz]

/-- C9 counterexample: a customer-306 order whose Task_Pri 99 is not a key of
the MCP dollar map ends dataset preparation with an undefined DollarPerSquare,
so not every order has a resolved, defined dollar value. -/
theorem C9_counterexample :
    populate_dollar_values [] [] rowsC9 =
      [{ cust := 306, taskPri := 99, dollar := none }] ∧
    ¬ (∀ r ∈ populate_dollar_values [] [] rowsC9, r.dollar.isSome = true) := by
  have h : populate_dollar_values [] [] rowsC9 =
      [{ cust := 306, taskPri := 99, dollar := none }] := by
    rw [rowsC9, populate_dollar_values]
    simp [populate_MCP_dollar_value, List.lookup]
  refine ⟨h, fun hall => ?_⟩
  rw [h] at hall
  have := hall _ (List.mem_cons_self _ _)
  simp at this

/-- C5 counterexample: the score used for scheduling by the Orders variant is
100 - priority, not the exponential formula: at priority 200 the code scores
-100 while exp(0.47 (10 - 5 * 200 / 100)) = exp 0 = 1. -/
theorem C5_counterexample :
    priority_to_score (200 : ℝ) = -100 ∧ score_spec 200 = 1 ∧
    priority_to_score (200 : ℝ) ≠ score_spec 200 := by
  have h1 : priority_to_score (200 : ℝ) = -100 := by
    rw [priority_to_score]
    norm_num
  have h2 : score_spec 200 = 1 := by
    rw [score_spec, show (0.47 : ℝ) * (10 - 5 * 200 / 100) = 0 by norm_num, Real.exp_zero]
  exact ⟨h1, h2, by rw [h1, h2]; norm_num⟩

/-- C5 amended: in the pri_scheme variant the scheduling score is
exp(0.47 (10 - 5 priority / 100)) and populate_score feeds it priority - 700;
in the Orders variant used by the Optimizer the score is 100 - priority (the
exponential line is commented out); both score maps are strictly decreasing
in priority. -/
theorem C5_score_functions :
    (∀ p : ℝ, priScheme_priority_to_score p = score_spec p) ∧
    (∀ p : ℝ, priScheme_score p = score_spec (p - 700)) ∧
    StrictAnti priScheme_priority_to_score ∧
    StrictAnti (priority_to_score : ℝ → ℝ) := by
  refine ⟨fun p => rfl, fun p => rfl, ?_, ?_⟩
  · intro a b hab
    show Real.exp _ < Real.exp _
    apply Real.exp_lt_exp.mpr
    nlinarith
  · intro a b hab
    show (100 : ℝ) - b < 100 - a
    linarith

/-- C8 amended: produce_curve substitutes 0 for every NaN coefficient, so a
vector with NaN at index i evaluates exactly like the same vector with 0 at
index i; an infinite coefficient, by contrast, is not substituted. -/
theorem C8_nan_sanitized (c : Fin 7 → FVal) (i : Fin 7) (hnan : c i = FVal.nan) (x : ℝ) :
    produce_curveF c x = produce_curveF (Function.update c i (FVal.finite 0)) x := by
  have hs : sanitize c = sanitize (Function.update c i (FVal.finite 0)) := by
    funext j
    by_cases hj : j = i
    · subst hj
      simp only [sanitize, hnan, Function.update_same]
      rfl
    · simp only [sanitize, Function.update_noteq hj]
  simp only [produce_curveF, hs]

/-- C8 witness: a concrete vector with NaN in the constant slot evaluates at
dollar value 0 exactly like that vector with 0 substituted there. -/
theorem C8_nan_sanitized_witness :
    produce_curveF coefNan 0 = produce_curveF (Function.update coefNan 0 (FVal.finite 0)) 0 :=
  C8_nan_sanitized coefNan 0 rfl 0

/-- C8 counterexample: an infinite coefficient is not substituted by 0: the
vector with +infinity in the constant slot evaluates at dollar value 0 to
+infinity, while the same vector with 0 at that index evaluates to the finite
value 0, so the two evaluations differ. -/
theorem C8_counterexample :
    FVal.isFiniteB (coefInf 0) = false ∧
    produce_curveF coefInf 0 = FVal.posInf ∧
    produce_curveF (Function.update coefInf 0 (FVal.finite 0)) 0 = FVal.finite 0 ∧
    produce_curveF coefInf 0 ≠ produce_curveF (Function.update coefInf 0 (FVal.finite 0)) 0 := by
  have h2 : produce_curveF coefInf 0 = FVal.posInf := rfl
  have h3 : produce_curveF (Function.update coefInf 0 (FVal.finite 0)) 0 =
      FVal.finite (0 + 0 * 0 + 0 * Real.exp (0.04 * 0) + 0 * Real.sqrt 0 +
        0 * ((0 : ℝ) - 15) ^ 2 + 0 * Real.sin (0.2 * (0 - 10)) +
        0 * Real.cos (0.2 * (0 - 10))) := rfl
  have h3' : produce_curveF (Function.update coefInf 0 (FVal.finite 0)) 0 = FVal.finite 0 := by
    rw [h3]
    congr 1
    simp
  refine ⟨rfl, h2, h3', ?_⟩
  rw [h2, h3']
  simp

theorem curve_check_singleCoeff_50 :
    curve_check (fun i : ℕ => produce_curve (singleCoeff 50) (i : ℝ)) = 1 := by
  rw [produce_curve_single_fun]
  exact curve_check_of_inRange (by rw [maxVal_const]; norm_num)
    (by rw [minVal_const]; norm_num)

theorem curve_check_singleCoeff_150 :
    curve_check (fun i : ℕ => produce_curve (singleCoeff 150) (i : ℝ)) = 1251 := by
  rw [produce_curve_single_fun, curve_check_eq, maxVal_const, minVal_const,
    if_pos (by norm_num : (100 : ℝ) < 150), if_neg (by norm_num : ¬(150 : ℝ) < 0),
    Int.ceil_eq_iff]
  constructor <;> norm_num

/-- C7: when a Case's starting curve passes the check and the search then
reports failure, the run aborts with an error exactly when the failure
message is not the evaluation-budget message; with the budget message no
error is raised, the search result with its best point is recorded, and the
run continues over the remaining cases. -/
theorem C7_nonconvergence_fatal (minimize : (Fin 7 → ℝ) → MinimizeResult)
    (coefficients : Fin 7 → ℝ) (rest : List (Fin 7 → ℝ)) :
    ((curve_check (fun i => produce_curve coefficients (i : ℝ)) = 1 ∧
        (minimize coefficients).success = false ∧
        (minimize coefficients).message ≠ maxFevalMessage) →
      runCases minimize (coefficients :: rest) =
        Except.error (minimize coefficients).message) ∧
    ((curve_check (fun i => produce_curve coefficients (i : ℝ)) = 1 ∧
        (minimize coefficients).success = false ∧
        (minimize coefficients).message = maxFevalMessage) →
      processCase minimize coefficients = Except.ok (some (minimize coefficients)) ∧
      ∀ rs, runCases minimize rest = Except.ok rs →
        runCases minimize (coefficients :: rest) =
          Except.ok (some (minimize coefficients) :: rs)) := by
  constructor
  · rintro ⟨hc, hs, hm⟩
    have hp : processCase minimize coefficients =
        Except.error (minimize coefficients).message := by
      simp only [processCase, if_pos hc]
      rw [if_pos ⟨hs, hm⟩]
    simp only [runCases, hp]
  · rintro ⟨hc, hs, hm⟩
    have hp : processCase minimize coefficients = Except.ok (some (minimize coefficients)) := by
      simp only [processCase, if_pos hc]
      rw [if_neg fun h => h.2 hm]
    refine ⟨hp, fun rs hrs => ?_⟩
    simp only [runCases, hp, hrs]

/-- C7 witness: a failed search with a non-budget message aborts the run; a
failed search with the budget message is tolerated and its result kept. -/
theorem C7_nonconvergence_fatal_witness :
    runCases minimizeFailed [singleCoeff 50] =
      Except.error (minimizeFailed (singleCoeff 50)).message ∧
    processCase minimizeBudget (singleCoeff 50) =
      Except.ok (some (minimizeBudget (singleCoeff 50))) := by
  constructor
  · exact (C7_nonconvergence_fatal minimizeFailed (singleCoeff 50) []).1
      ⟨curve_check_singleCoeff_50, rfl, by decide⟩
  · exact ((C7_nonconvergence_fatal minimizeBudget (singleCoeff 50) []).2
      ⟨curve_check_singleCoeff_50, rfl, rfl⟩).1

/-- C6 amended: produce_optimized_curves checks the starting curve once per
Case and, when the check is not 1, skips the Case without invoking the search
and continues with the remaining cases, not fatally; but the validity
penalty is also recomputed inside every cost_function evaluation, where it
divides the averaged revenue, so a per-iteration evaluation agrees with the
penalty-free objective only when the current curve passes the check or the
averaged revenue is zero. -/
theorem C6_validity_check_usage :
    (∀ (minimize1 minimize2 : (Fin 7 → ℝ) → MinimizeResult) (coefficients : Fin 7 → ℝ),
      curve_check (fun i => produce_curve coefficients (i : ℝ)) ≠ 1 →
        processCase minimize1 coefficients = Except.ok none ∧
        processCase minimize1 coefficients = processCase minimize2 coefficients) ∧
    (∀ (minimize : (Fin 7 → ℝ) → MinimizeResult) (coefficients : Fin 7 → ℝ)
        (rest : List (Fin 7 → ℝ)),
      curve_check (fun i => produce_curve coefficients (i : ℝ)) ≠ 1 →
        runCases minimize (coefficients :: rest) =
          (runCases minimize rest).map (fun rs => none :: rs)) ∧
    (∀ (coefficients : Fin 7 → ℝ) (minLat maxLat : ℝ) (scenarios : ℕ)
        (orders : List (SatOrder ℝ)) (noise : ℝ),
      cost_function coefficients minLat maxLat scenarios orders noise =
        cost_function_claim coefficients minLat maxLat scenarios orders noise ↔
      (curve_check (fun i => produce_curve coefficients (i : ℝ)) = 1 ∨
        average_dollar_total minLat maxLat scenarios
          (populate_score (populate_priority (produce_curve coefficients) orders)) = 0)) := by
  refine ⟨fun minimize1 minimize2 coefficients h => ?_,
    fun minimize coefficients rest h => ?_,
    fun coefficients minLat maxLat scenarios orders noise => ?_⟩
  · constructor <;> simp only [processCase, if_neg h]
  · have hp : processCase minimize coefficients = Except.ok none := by
      simp only [processCase, if_neg h]
    cases hr : runCases minimize rest with
    | error e => simp only [runCases, hp, hr, Except.map]
    | ok rs => simp only [runCases, hp, hr, Except.map]
  · have hm1 : 1 ≤ curve_check (fun i => produce_curve coefficients (i : ℝ)) :=
      one_le_curve_check _
    set m : ℤ := curve_check (fun i => produce_curve coefficients (i : ℝ)) with hmdef
    set a : ℝ := average_dollar_total minLat maxLat scenarios
      (populate_score (populate_priority (produce_curve coefficients) orders)) with hadef
    have hmR : (1 : ℝ) ≤ (m : ℝ) := by exact_mod_cast hm1
    have hm0 : (m : ℝ) ≠ 0 := by linarith
    simp only [cost_function, cost_function_claim, ← hmdef, ← hadef]
    constructor
    · intro h
      have hdiv : a / (m : ℝ) = a := by
        have := add_right_cancel h
        linarith [neg_injective this]
      have hmul : a = a * (m : ℝ) := (div_eq_iff hm0).mp hdiv
      have hfac : a * ((m : ℝ) - 1) = 0 := by nlinarith [hmul]
      rcases mul_eq_zero.mp hfac with ha | hm
      · exact Or.inr ha
      · left
        have : (m : ℝ) = 1 := by linarith
        exact_mod_cast this
    · rintro (h1 | h0)
      · have : (m : ℝ) = 1 := by exact_mod_cast h1
        rw [this, div_one]
      · rw [h0, zero_div]

/-- C6 witness: a starting curve failing the check (the constant curve 150,
penalty 1251) makes the Case skip without consulting the search routine. -/
theorem C6_validity_check_usage_witness :
    processCase minimizeBudget (singleCoeff 150) = Except.ok none :=
  (C6_validity_check_usage.1 minimizeBudget minimizeFailed (singleCoeff 150)
    (by rw [curve_check_singleCoeff_150]; norm_num)).1

theorem scored_ordersC6 :
    populate_score (populate_priority (produce_curve (singleCoeff 150)) ordersC6) =
      ordersC6scored := by
  simp only [populate_priority, populate_score, ordersC6, List.map_cons, List.map_nil,
    priority_to_score, produce_curve_single, ordersC6scored, rowC6a, rowC6b]
  norm_num

theorem numBands_C6 : numBands (10 : ℝ) 10.5 = 1 := by
  rw [numBands, show ((10.5 : ℝ) + 1 - 10) / 2 = 0.75 by norm_num]
  exact (Nat.ceil_eq_iff one_ne_zero).mpr ⟨by norm_num, by norm_num⟩

theorem bandStarts_C6 : bandStarts (10 : ℝ) 10.5 = [10] := by
  rw [bandStarts, numBands_C6, show List.range 1 = [0] from rfl, List.map_cons, List.map_nil]
  norm_num

theorem bandSlice_C6 : bandSlice 10 ordersC6ts = [(1, rowC6b)] := by
  have hb1 : inBandB (10 : ℝ) rowC6a = false := by
    rw [inBandB, decide_eq_false_iff_not, inBand]
    rw [show rowC6a.latitude = 10 from rfl]
    norm_num
  have hb2 : inBandB (10 : ℝ) rowC6b = true := by
    rw [inBandB, decide_eq_true_eq, inBand]
    rw [show rowC6b.latitude = 10.5 from rfl]
    norm_num
  rw [bandSlice, ordersC6ts]
  simp only [List.enum_cons, List.enumFrom_cons, List.enumFrom_nil, List.filter_cons,
    List.filter_nil, hb1, hb2]
  simp

theorem schedule_ordersC6 : schedule_orders 10 10.5 ordersC6ts = ordersC6sched := by
  rw [schedule_orders, bandStarts_C6, List.foldl_cons, List.foldl_nil, scheduleBand,
    bandSlice_C6]
  simp only [idxmaxPairs]
  rw [ordersC6ts, ordersC6sched]
  simp [markScheduled]

theorem scenarioState_C6 : scenarioState 10 10.5 0 ordersC6scored = ordersC6sched := by
  rw [scenarioState]
  have hreset : resetScheduled ordersC6scored = ordersC6scored := rfl
  have hts : populate_total_score 0 ordersC6scored = ordersC6ts := by
    simp only [populate_total_score, ordersC6scored, ordersC6ts, List.map_cons, List.map_nil,
      rowC6a, rowC6b]
    norm_num
  rw [hreset, hts, schedule_ordersC6]

theorem total_dollars_C6 : total_dollars 0 ordersC6sched = 5 := by
  have hd : decide (rowC6b.maxCC > rowC6b.actual 0) = true := by
    rw [decide_eq_true_eq]
    rw [show rowC6b.maxCC = 1 from rfl, show rowC6b.actual 0 = 0 from rfl]
    norm_num
  rw [total_dollars, ordersC6sched]
  simp only [List.filter_cons, List.filter_nil,
    show rowC6a.scheduled = false from rfl,
    show ({ rowC6b with scheduled := true } : SatOrder ℝ).scheduled = true from rfl,
    show ({ rowC6b with scheduled := true } : SatOrder ℝ).maxCC = rowC6b.maxCC from rfl,
    show ({ rowC6b with scheduled := true } : SatOrder ℝ).actual = rowC6b.actual from rfl,
    hd, Bool.false_and, Bool.true_and]
  simp [rowC6b]

theorem average_C6 : average_dollar_total 10 10.5 1 ordersC6scored = 5 := by
  rw [average_dollar_total, show List.range 1 = [0] from rfl, List.map_cons, List.map_nil, scenarioState_C6,
    total_dollars_C6]
  norm_num

/-- C6 counterexample: the validity penalty is applied inside a per-iteration
cost evaluation: with the invalid constant-150 curve (penalty 1251) on a
two-order table whose scheduled winner pays 5, cost_function returns
-(5/1251) + 0, while the claim's penalty-free per-iteration objective gives
-5 + 0, so the two differ. -/
theorem C6_counterexample :
    cost_function (singleCoeff 150) 10 10.5 1 ordersC6 0 = -(5 / 1251) ∧
    cost_function_claim (singleCoeff 150) 10 10.5 1 ordersC6 0 = -5 ∧
    cost_function (singleCoeff 150) 10 10.5 1 ordersC6 0 ≠
      cost_function_claim (singleCoeff 150) 10 10.5 1 ordersC6 0 := by
  have hcost : cost_function (singleCoeff 150) 10 10.5 1 ordersC6 0 = -(5 / 1251) := by
    simp only [cost_function]
    rw [curve_check_singleCoeff_150, scored_ordersC6, average_C6]
    push_cast
    norm_num
  have hclaim : cost_function_claim (singleCoeff 150) 10 10.5 1 ordersC6 0 = -5 := by
    simp only [cost_function_claim]
    rw [scored_ordersC6, average_C6]
    norm_num
  refine ⟨hcost, hclaim, ?_⟩
  rw [hcost, hclaim]
  norm_num

/-! Lemmas for the scheduler: properties of idxmaxPairs, markScheduled and the
band fold. -/

theorem idxmaxPairs_cons_ne_none (p : ℕ × SatOrder α) (rest : List (ℕ × SatOrder α)) :
    idxmaxPairs (p :: rest) ≠ none := by
  obtain ⟨k, o⟩ := p
  simp only [idxmaxPairs]
  cases h : idxmaxPairs rest with
  | none => simp
  | some q =>
    obtain ⟨j, s⟩ := q
    by_cases hlt : o.totalScore < s <;> simp [hlt]

theorem idxmaxPairs_eq_none {l : List (ℕ × SatOrder α)} :
    idxmaxPairs l = none ↔ l = [] := by
  cases l with
  | nil => simp [idxmaxPairs]
  | cons p rest =>
    constructor
    · intro h
      exact absurd h (idxmaxPairs_cons_ne_none p rest)
    · intro h
      cases h

theorem idxmaxPairs_mem {l : List (ℕ × SatOrder α)} {j : ℕ} {s : α}
    (h : idxmaxPairs l = some (j, s)) : ∃ o, (j, o) ∈ l ∧ o.totalScore = s := by
  induction l with
  | nil => cases h
  | cons p rest ih =>
    obtain ⟨k, o⟩ := p
    simp only [idxmaxPairs] at h
    cases hr : idxmaxPairs rest with
    | none =>
      simp only [hr] at h
      injection h with h'
      have hk : k = j := congrArg Prod.fst h'
      have hs : o.totalScore = s := congrArg Prod.snd h'
      subst hk
      exact ⟨o, List.mem_cons_self _ _, hs⟩
    | some q =>
      obtain ⟨j', s'⟩ := q
      simp only [hr] at h
      by_cases hlt : o.totalScore < s'
      · rw [if_pos hlt] at h
        obtain ⟨o', hmem, hsc⟩ := ih (by rw [hr, h])
        exact ⟨o', List.mem_cons_of_mem _ hmem, hsc⟩
      · rw [if_neg hlt] at h
        injection h with h'
        have hk : k = j := congrArg Prod.fst h'
        have hs : o.totalScore = s := congrArg Prod.snd h'
        subst hk
        exact ⟨o, List.mem_cons_self _ _, hs⟩

theorem idxmaxPairs_max : ∀ {l : List (ℕ × SatOrder α)} {j : ℕ} {s : α},
    idxmaxPairs l = some (j, s) → ∀ p ∈ l, p.2.totalScore ≤ s := by
  intro l
  induction l with
  | nil => intro j s h; cases h
  | cons p rest ih =>
    intro j s h
    obtain ⟨k, o⟩ := p
    simp only [idxmaxPairs] at h
    cases hr : idxmaxPairs rest with
    | none =>
      simp only [hr] at h
      have hs : o.totalScore = s := congrArg Prod.snd (Option.some.inj h)
      intro q hq
      rcases List.mem_cons.mp hq with rfl | hq'
      · exact le_of_eq hs
      · exact absurd (idxmaxPairs_eq_none.mp hr ▸ hq') (List.not_mem_nil q)
    | some q0 =>
      obtain ⟨j', s'⟩ := q0
      simp only [hr] at h
      by_cases hlt : o.totalScore < s'
      · rw [if_pos hlt] at h
        have hpair := Option.some.inj h
        have hj : j' = j := congrArg Prod.fst hpair
        have hs : s' = s := congrArg Prod.snd hpair
        subst hj
        subst hs
        intro q hq
        rcases List.mem_cons.mp hq with rfl | hq'
        · exact le_of_lt hlt
        · exact ih hr q hq'
      · rw [if_neg hlt] at h
        have hs : o.totalScore = s := congrArg Prod.snd (Option.some.inj h)
        intro q hq
        rcases List.mem_cons.mp hq with rfl | hq'
        · exact le_of_eq hs
        · exact le_trans (ih hr q hq') (le_trans (not_lt.mp hlt) (le_of_eq hs))

theorem markScheduled_length (l : List (SatOrder α)) (i : ℕ) :
    (markScheduled l i).length = l.length := by
  induction l generalizing i with
  | nil => rfl
  | cons o rest ih =>
    cases i with
    | zero => rfl
    | succ n => simp [markScheduled, ih]

theorem markScheduled_get? (l : List (SatOrder α)) (i j : ℕ) :
    (markScheduled l i).get? j =
      if j = i then (l.get? j).map (fun o => { o with scheduled := true })
      else l.get? j := by
  induction l generalizing i j with
  | nil =>
    simp only [markScheduled, List.get?_nil, Option.map_none']
    split <;> rfl
  | cons o rest ih =>
    cases i with
    | zero =>
      cases j with
      | zero => simp [markScheduled]
      | succ m => simp [markScheduled]
    | succ n =>
      cases j with
      | zero => simp [markScheduled]
      | succ m => simpa [markScheduled, Nat.succ_eq_add_one] using ih n m

theorem idxmaxPairs_cons_congr (p : ℕ × SatOrder α) {F1 F2 : List (ℕ × SatOrder α)}
    (h : idxmaxPairs F1 = idxmaxPairs F2) :
    idxmaxPairs (p :: F1) = idxmaxPairs (p :: F2) := by
  obtain ⟨k, o⟩ := p
  simp only [idxmaxPairs, h]

theorem idxmaxPairs_enumFrom_mark (lat : α) (l : List (SatOrder α)) :
    ∀ (i n : ℕ),
      idxmaxPairs ((List.enumFrom n (markScheduled l i)).filter fun p => inBandB lat p.2) =
      idxmaxPairs ((List.enumFrom n l).filter fun p => inBandB lat p.2) := by
  induction l with
  | nil => intro i n; rfl
  | cons o rest ih =>
    intro i n
    cases i with
    | zero =>
      simp only [markScheduled, List.enumFrom_cons, List.filter_cons]
      have hband : inBandB lat ({ o with scheduled := true } : SatOrder α) = inBandB lat o :=
        rfl
      rw [hband]
      by_cases hb : inBandB lat o = true
      · rw [if_pos hb, if_pos hb]
        rfl
      · rw [if_neg hb, if_neg hb]
    | succ m =>
      simp only [markScheduled, List.enumFrom_cons, List.filter_cons]
      by_cases hb : inBandB lat o = true
      · rw [if_pos hb, if_pos hb]
        exact idxmaxPairs_cons_congr _ (ih m (n + 1))
      · rw [if_neg hb, if_neg hb]
        exact ih m (n + 1)

theorem bandSlice_mark (lat : α) (l : List (SatOrder α)) (i : ℕ) :
    idxmaxPairs (bandSlice lat (markScheduled l i)) = idxmaxPairs (bandSlice lat l) :=
  idxmaxPairs_enumFrom_mark lat l i 0

theorem scheduleBand_get? (lat : α) (l : List (SatOrder α)) (j : ℕ) :
    (scheduleBand l lat).get? j =
      if (idxmaxPairs (bandSlice lat l)).map Prod.fst = some j
      then (l.get? j).map (fun o => { o with scheduled := true })
      else l.get? j := by
  rw [scheduleBand]
  cases h : idxmaxPairs (bandSlice lat l) with
  | none => simp [h]
  | some q =>
    obtain ⟨i, s⟩ := q
    rw [markScheduled_get?]
    simp only [h, Option.map_some']
    by_cases hij : j = i
    · rw [if_pos hij, if_pos (by rw [hij])]
    · rw [if_neg hij, if_neg fun hc => hij (Option.some.inj hc).symm]

theorem scheduleBand_length (l : List (SatOrder α)) (lat : α) :
    (scheduleBand l lat).length = l.length := by
  rw [scheduleBand]
  cases h : idxmaxPairs (bandSlice lat l) with
  | none => rfl
  | some q => exact markScheduled_length l q.1

theorem foldl_scheduleBand_length (Ls : List α) (l : List (SatOrder α)) :
    (Ls.foldl scheduleBand l).length = l.length := by
  induction Ls generalizing l with
  | nil => rfl
  | cons L Ls ih => rw [List.foldl_cons, ih, scheduleBand_length]

theorem scheduleBand_bandSlice (lat L : α) (l : List (SatOrder α)) :
    idxmaxPairs (bandSlice lat (scheduleBand l L)) = idxmaxPairs (bandSlice lat l) := by
  rw [scheduleBand]
  cases h : idxmaxPairs (bandSlice L l) with
  | none => rfl
  | some q => exact bandSlice_mark lat l q.1

theorem foldl_scheduleBand_get? (Ls : List α) (l : List (SatOrder α)) (j : ℕ) :
    (Ls.foldl scheduleBand l).get? j =
      if (∃ L ∈ Ls, (idxmaxPairs (bandSlice L l)).map Prod.fst = some j)
      then (l.get? j).map (fun o => { o with scheduled := true })
      else l.get? j := by
  induction Ls generalizing l with
  | nil =>
    simp only [List.foldl_nil, List.not_mem_nil, false_and, exists_false, if_false]
  | cons L Ls ih =>
    rw [List.foldl_cons, ih (scheduleBand l L)]
    have hinv : ∀ L', idxmaxPairs (bandSlice L' (scheduleBand l L)) =
        idxmaxPairs (bandSlice L' l) := fun L' => scheduleBand_bandSlice L' L l
    simp only [hinv]
    rw [scheduleBand_get?]
    by_cases hA : (idxmaxPairs (bandSlice L l)).map Prod.fst = some j
    · by_cases hB : ∃ L' ∈ Ls, (idxmaxPairs (bandSlice L' l)).map Prod.fst = some j
      · rw [if_pos hB, if_pos hA, if_pos ⟨L, List.mem_cons_self _ _, hA⟩, Option.map_map]
        rfl
      · rw [if_neg hB, if_pos hA, if_pos ⟨L, List.mem_cons_self _ _, hA⟩]
    · by_cases hB : ∃ L' ∈ Ls, (idxmaxPairs (bandSlice L' l)).map Prod.fst = some j
      · rw [if_pos hB, if_neg hA]
        obtain ⟨L', hL', hj⟩ := hB
        rw [if_pos ⟨L', List.mem_cons_of_mem _ hL', hj⟩]
      · rw [if_neg hB, if_neg hA, if_neg]
        rintro ⟨L', hL', hj⟩
        rcases List.mem_cons.mp hL' with rfl | hL''
        · exact hA hj
        · exact hB ⟨L', hL'', hj⟩

theorem mem_bandSlice {lat : α} {l : List (SatOrder α)} {j : ℕ} {o : SatOrder α} :
    (j, o) ∈ bandSlice lat l ↔ l.get? j = some o ∧ inBand lat o := by
  rw [bandSlice, List.mem_filter]
  rw [show ((j, o) ∈ l.enum) = (l.get? j = some o) from propext List.mem_enum_iff_get?]
  simp [inBandB]

theorem bandIdxmax_spec {lat : α} {l : List (SatOrder α)} {j : ℕ} {s : α}
    (h : idxmaxPairs (bandSlice lat l) = some (j, s)) :
    (∃ o, l.get? j = some o ∧ inBand lat o ∧ o.totalScore = s) ∧
    (∀ j' o', l.get? j' = some o' → inBand lat o' → o'.totalScore ≤ s) := by
  constructor
  · obtain ⟨o, hmem, hsc⟩ := idxmaxPairs_mem h
    obtain ⟨hg, hb⟩ := mem_bandSlice.mp hmem
    exact ⟨o, hg, hb, hsc⟩
  · intro j' o' hg hb
    exact idxmaxPairs_max h (j', o') (mem_bandSlice.mpr ⟨hg, hb⟩)

theorem bandIdxmax_isSome {lat : α} {l : List (SatOrder α)} {o : SatOrder α}
    (hmem : o ∈ l) (hb : inBand lat o) :
    ∃ j s, idxmaxPairs (bandSlice lat l) = some (j, s) := by
  obtain ⟨n, hn⟩ := List.mem_iff_get?.mp hmem
  have hmem' : (n, o) ∈ bandSlice lat l := mem_bandSlice.mpr ⟨hn, hb⟩
  cases h : idxmaxPairs (bandSlice lat l) with
  | none =>
    rw [idxmaxPairs_eq_none.mp h] at hmem'
    exact absurd hmem' (List.not_mem_nil _)
  | some q => exact ⟨q.1, q.2, rfl⟩

theorem mem_bandStarts {minLat maxLat L : α} :
    L ∈ bandStarts minLat maxLat ↔
      ∃ k : ℕ, L = minLat + 2 * (k : α) ∧ minLat + 2 * (k : α) < maxLat + 1 := by
  rw [bandStarts, List.mem_map]
  constructor
  · rintro ⟨k, hk, rfl⟩
    rw [List.mem_range, numBands, Nat.lt_ceil, lt_div_iff (by norm_num : (0 : α) < 2)] at hk
    exact ⟨k, rfl, by linarith⟩
  · rintro ⟨k, rfl, hlt⟩
    refine ⟨k, ?_, rfl⟩
    rw [List.mem_range, numBands, Nat.lt_ceil, lt_div_iff (by norm_num : (0 : α) < 2)]
    linarith

theorem bandStarts_disjoint {minLat maxLat L1 L2 : α} {o : SatOrder α}
    (h1 : L1 ∈ bandStarts minLat maxLat) (h2 : L2 ∈ bandStarts minLat maxLat)
    (hb1 : inBand L1 o) (hb2 : inBand L2 o) : L1 = L2 := by
  obtain ⟨a, rfl, -⟩ := mem_bandStarts.mp h1
  obtain ⟨b, rfl, -⟩ := mem_bandStarts.mp h2
  obtain ⟨hb1l, hb1r⟩ := hb1
  obtain ⟨hb2l, hb2r⟩ := hb2
  rcases lt_trichotomy a b with h | h | h
  · exfalso
    have hc : (a : α) + 1 ≤ (b : α) := by exact_mod_cast Nat.succ_le_of_lt h
    linarith
  · rw [h]
  · exfalso
    have hc : (b : α) + 1 ≤ (a : α) := by exact_mod_cast Nat.succ_le_of_lt h
    linarith

theorem resetScheduled_get? (l : List (SatOrder α)) (j : ℕ) :
    (resetScheduled l).get? j = (l.get? j).map fun o => { o with scheduled := false } := by
  rw [resetScheduled, List.get?_map]

theorem resetScheduled_length (l : List (SatOrder α)) :
    (resetScheduled l).length = l.length := by
  rw [resetScheduled, List.length_map]

/-- C1: the scheduler partitions latitudes into bands whose starts step by 2
from min_latitude while below max_latitude + 1; a band holds exactly the
orders with latitude strictly between the band start and start + 1; after the
per-scenario reset, each non-empty band gets exactly one order marked
scheduled, one attaining the maximum Total_Score in the band; an empty band
marks nothing (and raises no error, the function being total); the table
keeps its length and no order outside every band is marked. -/
theorem C1_scheduler_latitude_bands (orders : List (SatOrder α)) (minLat maxLat : α) :
    (∀ L : α, L ∈ bandStarts minLat maxLat ↔
      ∃ k : ℕ, L = minLat + 2 * (k : α) ∧ minLat + 2 * (k : α) < maxLat + 1) ∧
    (∀ (L : α) (o : SatOrder α), inBand L o ↔ L < o.latitude ∧ o.latitude < L + 1) ∧
    (schedule_orders minLat maxLat (resetScheduled orders)).length = orders.length ∧
    (∀ L ∈ bandStarts minLat maxLat,
      ((∃ o ∈ orders, inBand L o) →
        ∃! j : ℕ, ∃ o,
          (schedule_orders minLat maxLat (resetScheduled orders)).get? j = some o ∧
          inBand L o ∧ o.scheduled = true) ∧
      ((∀ o ∈ orders, ¬ inBand L o) →
        ∀ j o, (schedule_orders minLat maxLat (resetScheduled orders)).get? j = some o →
          ¬(inBand L o ∧ o.scheduled = true)) ∧
      (∀ j o, (schedule_orders minLat maxLat (resetScheduled orders)).get? j = some o →
        inBand L o → o.scheduled = true →
        ∀ j' o',
          (schedule_orders minLat maxLat (resetScheduled orders)).get? j' = some o' →
          inBand L o' → o'.totalScore ≤ o.totalScore)) ∧
    (∀ j o, (schedule_orders minLat maxLat (resetScheduled orders)).get? j = some o →
      o.scheduled = true → ∃ L ∈ bandStarts minLat maxLat, inBand L o) := by
  have hget : ∀ j, (schedule_orders minLat maxLat (resetScheduled orders)).get? j =
      if (∃ L ∈ bandStarts minLat maxLat,
          (idxmaxPairs (bandSlice L (resetScheduled orders))).map Prod.fst = some j)
      then ((resetScheduled orders).get? j).map (fun o => { o with scheduled := true })
      else (resetScheduled orders).get? j :=
    fun j => foldl_scheduleBand_get? (bandStarts minLat maxLat) (resetScheduled orders) j
  have hl0flag : ∀ j o, (resetScheduled orders).get? j = some o → o.scheduled = false := by
    intro j o h
    rw [resetScheduled_get?] at h
    obtain ⟨o0, -, rfl⟩ := Option.map_eq_some'.mp h
    rfl
  have hrel : ∀ j o, (schedule_orders minLat maxLat (resetScheduled orders)).get? j = some o →
      ∃ o0, (resetScheduled orders).get? j = some o0 ∧
        (o = o0 ∨ o = { o0 with scheduled := true }) := by
    intro j o hRj
    rw [hget j] at hRj
    by_cases hc : ∃ L ∈ bandStarts minLat maxLat,
        (idxmaxPairs (bandSlice L (resetScheduled orders))).map Prod.fst = some j
    · rw [if_pos hc] at hRj
      obtain ⟨o0, h0, rfl⟩ := Option.map_eq_some'.mp hRj
      exact ⟨o0, h0, Or.inr rfl⟩
    · rw [if_neg hc] at hRj
      exact ⟨o, hRj, Or.inl rfl⟩
  have hsched : ∀ j o, (schedule_orders minLat maxLat (resetScheduled orders)).get? j = some o →
      (o.scheduled = true ↔ ∃ L ∈ bandStarts minLat maxLat,
        (idxmaxPairs (bandSlice L (resetScheduled orders))).map Prod.fst = some j) := by
    intro j o hRj
    rw [hget j] at hRj
    by_cases hc : ∃ L ∈ bandStarts minLat maxLat,
        (idxmaxPairs (bandSlice L (resetScheduled orders))).map Prod.fst = some j
    · rw [if_pos hc] at hRj
      obtain ⟨o0, -, rfl⟩ := Option.map_eq_some'.mp hRj
      exact ⟨fun _ => hc, fun _ => rfl⟩
    · rw [if_neg hc] at hRj
      have hflag := hl0flag j o hRj
      constructor
      · intro ht
        rw [hflag] at ht
        cases ht
      · intro hex
        exact absurd hex hc
  refine ⟨fun L => mem_bandStarts, fun L o => Iff.rfl,
    (foldl_scheduleBand_length _ _).trans (resetScheduled_length _),
    fun L hL => ⟨?_, ?_, ?_⟩, ?_⟩
  · -- a non-empty band gets exactly one scheduled order
    rintro ⟨o, homem, hob⟩
    have hmem0 : ({ o with scheduled := false } : SatOrder α) ∈ resetScheduled orders := by
      rw [resetScheduled]
      exact List.mem_map_of_mem _ homem
    have hob0 : inBand L ({ o with scheduled := false } : SatOrder α) := hob
    obtain ⟨i, s, hidx⟩ := bandIdxmax_isSome hmem0 hob0
    obtain ⟨⟨oi, hgi, hbi, hsi⟩, hmax⟩ := bandIdxmax_spec hidx
    have hcond : ∃ L' ∈ bandStarts minLat maxLat,
        (idxmaxPairs (bandSlice L' (resetScheduled orders))).map Prod.fst = some i :=
      ⟨L, hL, by rw [hidx]; rfl⟩
    have hRi : (schedule_orders minLat maxLat (resetScheduled orders)).get? i =
        some ({ oi with scheduled := true }) := by
      rw [hget i, if_pos hcond, hgi]
      rfl
    refine ⟨i, ⟨{ oi with scheduled := true }, hRi, hbi, rfl⟩, ?_⟩
    rintro j ⟨o', hRj, hbj, hsj⟩
    obtain ⟨L', hL', hj⟩ := (hsched j o' hRj).mp hsj
    obtain ⟨⟨j0, s'⟩, hidx', hj0⟩ := Option.map_eq_some'.mp hj
    have hj0' : j0 = j := hj0
    rw [hj0'] at hidx'
    obtain ⟨⟨oj, hgj, hbj', -⟩, -⟩ := bandIdxmax_spec hidx'
    obtain ⟨o0, hg0, hcase⟩ := hrel j o' hRj
    have ho0 : o0 = oj := Option.some.inj (hg0.symm.trans hgj)
    have hbandL : inBand L oj := by
      rw [← ho0]
      rcases hcase with rfl | rfl
      · exact hbj
      · exact hbj
    have hLL : L' = L := bandStarts_disjoint hL' hL hbj' hbandL
    subst hLL
    rw [hidx] at hidx'
    exact (congrArg Prod.fst (Option.some.inj hidx')).symm
  · -- an empty band marks nothing
    intro hempty j o hRj
    rintro ⟨hb, hs⟩
    obtain ⟨L', hL', hj⟩ := (hsched j o hRj).mp hs
    obtain ⟨⟨j0, s'⟩, hidx', hj0⟩ := Option.map_eq_some'.mp hj
    have hj0' : j0 = j := hj0
    rw [hj0'] at hidx'
    obtain ⟨⟨oj, hgj, hbj', -⟩, -⟩ := bandIdxmax_spec hidx'
    obtain ⟨o0, hg0, hcase⟩ := hrel j o hRj
    have ho0 : o0 = oj := Option.some.inj (hg0.symm.trans hgj)
    have hbandL : inBand L oj := by
      rw [← ho0]
      rcases hcase with rfl | rfl
      · exact hb
      · exact hb
    have hmem : oj ∈ resetScheduled orders := List.get?_mem hgj
    rw [resetScheduled] at hmem
    obtain ⟨o2, ho2, rfl⟩ := List.mem_map.mp hmem
    exact hempty o2 ho2 hbandL
  · -- the scheduled order attains the band maximum
    intro j o hRj hb hs j' o' hRj' hb'
    obtain ⟨L', hL', hj⟩ := (hsched j o hRj).mp hs
    obtain ⟨⟨j0, s⟩, hidx, hj0⟩ := Option.map_eq_some'.mp hj
    have hj0' : j0 = j := hj0
    rw [hj0'] at hidx
    obtain ⟨⟨oj, hgj, hbj', hsj⟩, hmax⟩ := bandIdxmax_spec hidx
    obtain ⟨o0, hg0, hcase⟩ := hrel j o hRj
    have ho0 : o0 = oj := Option.some.inj (hg0.symm.trans hgj)
    have hbandL : inBand L oj := by
      rw [← ho0]
      rcases hcase with rfl | rfl
      · exact hb
      · exact hb
    have hLL : L' = L := bandStarts_disjoint hL' hL hbj' hbandL
    subst hLL
    obtain ⟨o0', hg0', hcase'⟩ := hrel j' o' hRj'
    have hb0' : inBand L' o0' := by
      rcases hcase' with rfl | rfl
      · exact hb'
      · exact hb'
    have h1 : o'.totalScore = o0'.totalScore := by
      rcases hcase' with rfl | rfl <;> rfl
    have h2 : o.totalScore = oj.totalScore := by
      rcases hcase with rfl | rfl <;> rw [ho0]
    rw [h1, h2, hsj]
    exact hmax j' o0' hg0' hb0'
  · -- no order outside every band is marked
    intro j o hRj hs
    obtain ⟨L, hL, hj⟩ := (hsched j o hRj).mp hs
    obtain ⟨⟨j0, s⟩, hidx, hj0⟩ := Option.map_eq_some'.mp hj
    have hj0' : j0 = j := hj0
    rw [hj0'] at hidx
    obtain ⟨⟨oj, hgj, hbj, -⟩, -⟩ := bandIdxmax_spec hidx
    obtain ⟨o0, hg0, hcase⟩ := hrel j o hRj
    have ho0 : o0 = oj := Option.some.inj (hg0.symm.trans hgj)
    refine ⟨L, hL, ?_⟩
    rcases hcase with rfl | rfl
    · rw [ho0]
      exact hbj
    · show inBand L o0
      rw [ho0]
      exact hbj

end PriorityScheme
